import Mathlib

/-!
Verification of the reconciliation core of the docs-kb CLI:
manifest diffing (`compare_files`), the sync apply pipeline
(`process_changes`, `sync_repository`), the derived knowledge-base
naming rule (`get_kb_name`), repository-record lifecycle
(`ingest`, `delete_repository_action`).

Python dictionaries, lists of file dicts and the gateway/fetcher
collaborators are embedded shallowly: a manifest is a `List FileEntry`,
a path-keyed dict is an ordered association list built by `buildLookup`
(first-insertion position, last value wins, exactly like a Python dict
comprehension), and external collaborators (content fetcher, gateway,
clock) are parameters of the modelled functions.
-/

namespace DocsKb

/-- A manifest entry as produced by `FileLoader.discover_files`
(`src/docs_kb/core/file_loader.py`): a dict with keys
`path`, `name`, `size`, `sha`. -/
structure FileEntry where
  path : String
  name : String
  size : Nat
  sha : String
deriving DecidableEq, Repr

/-- The change-set dictionary built by `compare_files`
(`src/docs_kb/commands/sync.py`, lines 170-175): the four buckets
`new`, `modified`, `deleted`, `unchanged`, each a list of file dicts. -/
structure ChangeSet where
  new : List FileEntry
  modified : List FileEntry
  deleted : List FileEntry
  unchanged : List FileEntry
deriving DecidableEq, Repr

/-- One step of building a Python dict `{file["path"]: file for file in files}`:
if the key is already present the stored value is overwritten in place
(the key keeps its original position), otherwise the pair is appended. -/
def insertEntry (acc : List FileEntry) (f : FileEntry) : List FileEntry :=
  if acc.any (fun g => g.path = f.path) then
    acc.map (fun g => if g.path = f.path then f else g)
  else
    acc ++ [f]

/-- The Python dict comprehension `{file["path"]: file for file in files}`
from `compare_files` (sync.py lines 166-167), as an ordered association
list keyed by `path`. -/
def buildLookup (files : List FileEntry) : List FileEntry :=
  files.foldl insertEntry []

/-- Dict lookup / membership test by path (`path in lookup`,
`lookup[path]`). -/
def lookupPath (lookup : List FileEntry) (p : String) : Option FileEntry :=
  lookup.find? (fun f => f.path = p)

/-- The body of the first loop of `compare_files` (sync.py lines 178-184):
classify one current file as `new`, `modified` or `unchanged` against the
stored lookup and append it to that bucket. -/
def currentStep (stored_lookup : List FileEntry) (cs : ChangeSet)
    (current_file : FileEntry) : ChangeSet :=
  match lookupPath stored_lookup current_file.path with
  | none => { cs with new := cs.new ++ [current_file] }
  | some stored_file =>
      if stored_file.sha ≠ current_file.sha then
        { cs with modified := cs.modified ++ [current_file] }
      else
        { cs with unchanged := cs.unchanged ++ [current_file] }

/-- The body of the second loop of `compare_files` (sync.py lines 187-189):
a stored file whose path is absent from the current lookup is appended to
`deleted`. -/
def deletedStep (current_lookup : List FileEntry) (cs : ChangeSet)
    (stored_file : FileEntry) : ChangeSet :=
  match lookupPath current_lookup stored_file.path with
  | some _ => cs
  | none => { cs with deleted := cs.deleted ++ [stored_file] }

/-- `compare_files` (sync.py lines 159-191): build the two path-keyed
lookups, walk the current lookup classifying each file as new / modified /
unchanged, then walk the stored lookup collecting deleted files. -/
def compare_files (stored_files current_files : List FileEntry) : ChangeSet :=
  let stored_lookup := buildLookup stored_files
  let current_lookup := buildLookup current_files
  let cs := current_lookup.foldl (currentStep stored_lookup)
    { new := [], modified := [], deleted := [], unchanged := [] }
  stored_lookup.foldl (deletedStep current_lookup) cs

/-- `has_changes` (sync.py lines 244-252). -/
def has_changes (changes : ChangeSet) : Bool :=
  changes.new.length > 0 || changes.modified.length > 0
    || changes.deleted.length > 0

/-- `count_total_changes` (sync.py lines 255-259). -/
def count_total_changes (changes : ChangeSet) : Nat :=
  changes.new.length + changes.modified.length + changes.deleted.length

/-- Python `str.replace(old, new)` as used by `_get_kb_name`: the
patterns there are the single characters `/` and `-`, for which
replacing every non-overlapping occurrence of the pattern substring is
exactly replacing every occurrence of that character. -/
def strReplace (s : String) (pattern repl : Char) : String :=
  ⟨s.data.map (fun c => if c = pattern then repl else c)⟩

/-- `MindsDBClient._get_kb_name` (`src/docs_kb/core/mindsdb_client.py`
lines 88-89): `f"kb_{repo_name.replace('/', '_').replace('-', '_')}_{branch}"`. -/
def get_kb_name (repo_name branch : String) : String :=
  "kb_" ++ strReplace (strReplace repo_name '/' '_') '-' '_' ++ "_" ++ branch

/-- The `Repository` record of `src/docs_kb/core/models.py` (lines 17-28):
timestamps are modelled as abstract `Nat` ticks, `last_ingested` is
nullable. -/
structure Repository where
  id : Nat
  name : String
  branch : String
  knowledge_base_name : String
  created_at : Nat
  last_ingested : Option Nat
  files : List FileEntry
deriving DecidableEq, Repr

/-- A file object returned by the Content Fetcher
(`github_file_loader.load_files_sync`, an external collaborator): path,
name, size, sha plus the transient content. -/
structure LoadedFile where
  path : String
  name : String
  size : Nat
  sha : String
  content : String
deriving DecidableEq, Repr

/-- One row of the DataFrame that `process_changes` (sync.py lines
353-379) builds for `kb.insert`. -/
structure InsertRecord where
  id : String
  content : String
  repository : String
  branch : String
  path : String
  name : String
  size : Nat
  sha : String
deriving DecidableEq, Repr

/-- One call issued to the Knowledge Base Gateway during an apply run:
a `DELETE FROM kb WHERE id = path` statement or a batch `kb.insert`. -/
inductive GatewayOp where
  | deleteOp (path : String)
  | insertOp (records : List InsertRecord)
deriving DecidableEq, Repr

/-- Whether a gateway operation is a delete. -/
def GatewayOp.isDelete : GatewayOp → Bool
  | .deleteOp _ => true
  | .insertOp _ => false

/-- Whether a gateway operation is an insert. -/
def GatewayOp.isInsert : GatewayOp → Bool
  | .deleteOp _ => false
  | .insertOp _ => true

/-- `delete_files_from_knowledge_base` (sync.py lines 262-293) as the
sequence of gateway calls it issues: early return on an empty path list,
otherwise one delete statement per path (individual failures are caught
and warned, the call is still issued). -/
def delete_files_from_knowledge_base (file_paths : List String) :
    List GatewayOp :=
  if file_paths.isEmpty then []
  else file_paths.map GatewayOp.deleteOp

/-- The Content Fetcher (`load_files_sync`, external collaborator per the
spec): each requested path independently succeeds with a loaded file or
fails; failed paths are reported separately and are not in the loaded
list. -/
def load_files_sync (fetch : String → Option LoadedFile)
    (file_paths : List String) : List LoadedFile :=
  file_paths.filterMap fetch

/-- The record dict built for each loaded file (sync.py lines 354-365). -/
def mkInsertRecord (repository : Repository) (file_obj : LoadedFile) :
    InsertRecord :=
  { id := file_obj.path
    content := file_obj.content
    repository := repository.name
    branch := repository.branch
    path := file_obj.path
    name := file_obj.name
    size := file_obj.size
    sha := file_obj.sha }

/-- `update_repository_files` (sync.py lines 407-426): overwrite the
record's `files` with the given manifest and set `last_ingested` to now. -/
def update_repository_files (repository : Repository)
    (current_files : List FileEntry) (now : Nat) : Repository :=
  { repository with files := current_files, last_ingested := some now }

/-- Result of one apply run: the gateway calls issued, in order, and the
repository record as stored afterwards. -/
structure ProcessResult where
  ops : List GatewayOp
  repo : Repository
deriving DecidableEq, Repr

/-- `process_changes` (sync.py lines 296-404). Step 1: collect the paths
of modified then deleted files and delete them from the knowledge base.
Step 2: fetch `new ++ modified`; paths that fail to fetch are absent from
`loaded_files` and hence from the insert batch. Step 3: store the
re-discovered manifest (`file_loader.discover_files()` called again,
modelled by `rediscovered`) with a fresh timestamp. -/
def process_changes (repository : Repository)
    (fetch : String → Option LoadedFile) (rediscovered : List FileEntry)
    (now : Nat) (changes : ChangeSet) : ProcessResult :=
  let files_to_delete :=
    changes.modified.map (fun f => f.path)
      ++ changes.deleted.map (fun f => f.path)
  let deleteOps :=
    if files_to_delete.isEmpty then []
    else delete_files_from_knowledge_base files_to_delete
  let files_to_ingest := changes.new ++ changes.modified
  let insertOps :=
    if files_to_ingest.isEmpty then []
    else
      let file_paths := files_to_ingest.map (fun f => f.path)
      let loaded_files := load_files_sync fetch file_paths
      [GatewayOp.insertOp (loaded_files.map (mkInsertRecord repository))]
  { ops := deleteOps ++ insertOps
    repo := update_repository_files repository rediscovered now }

/-- Result of `sync_repository`: whether the no-op fast path reported
"already up to date", the gateway calls issued, and the resulting stored
record. -/
structure SyncResult where
  upToDate : Bool
  ops : List GatewayOp
  repo : Repository
deriving DecidableEq, Repr

/-- `sync_repository` (sync.py lines 102-156) from the point where the
current manifest has been discovered, with the user confirming the sync:
diff stored against current; if there are no changes report "already up
to date" and return without touching anything, else run
`process_changes`. -/
def sync_repository (repository : Repository)
    (current_files : List FileEntry) (fetch : String → Option LoadedFile)
    (rediscovered : List FileEntry) (now : Nat) : SyncResult :=
  let stored_files := repository.files
  let changes := compare_files stored_files current_files
  if !(has_changes changes) then
    { upToDate := true, ops := [], repo := repository }
  else
    let r := process_changes repository fetch rediscovered now changes
    { upToDate := false, ops := r.ops, repo := r.repo }

/-- `add_repository` (`src/docs_kb/core/models.py` lines 57-76): create a
fresh record (`last_ingested` defaults to null, `created_at` to now) and
append it to the store. -/
def add_repository (name knowledge_base_name branch : String)
    (files : List FileEntry) (nextId now : Nat)
    (store : List Repository) : Repository × List Repository :=
  let repository : Repository :=
    { id := nextId, name := name, branch := branch
      knowledge_base_name := knowledge_base_name
      created_at := now, last_ingested := none, files := files }
  (repository, store ++ [repository])

/-- Result of `MindsDBClient.ingest`: whether the call returned normally
(`ok = false` means an exception escaped), the returned record if any,
and the manifest store afterwards. -/
structure IngestResult where
  ok : Bool
  record : Option Repository
  store : List Repository
deriving DecidableEq, Repr

/-- `MindsDBClient.ingest` (`src/docs_kb/core/mindsdb_client.py` lines
21-42). `_create_or_get_kb` and `kb.insert` may each raise, aborting the
call with the store untouched (`kbOk`, `insertOk`); only after a
successful insert is `add_repository` attempted, and a failure there
(`addOk = false`) is caught and yields `None` without failing the
ingestion. -/
def ingest (repo_name branch : String) (files : List FileEntry)
    (kbOk insertOk addOk : Bool) (nextId now : Nat)
    (store : List Repository) : IngestResult :=
  if !kbOk then { ok := false, record := none, store := store }
  else if !insertOk then { ok := false, record := none, store := store }
  else if addOk then
    let (repository, store2) :=
      add_repository repo_name (get_kb_name repo_name branch) branch
        files nextId now store
    { ok := true, record := some repository, store := store2 }
  else
    { ok := true, record := none, store := store }

/-- `delete_repository` (`src/docs_kb/core/models.py` lines 97-106):
remove the first record with the given name, reporting whether one was
found. -/
def delete_repository (name : String) (store : List Repository) :
    Bool × List Repository :=
  match store.find? (fun r => r.name = name) with
  | none => (false, store)
  | some _ => (true, store.eraseP (fun r => r.name = name))

/-- Result of `MindsDBClient._delete_knowledge_base`: the gateway drop is
wrapped in `try/except`, so the only observable effects are which message
was printed; `raised` records whether an exception escaped the method. -/
structure DeleteKBResult where
  raised : Bool
  errorPrinted : Bool
deriving DecidableEq, Repr

/-- `MindsDBClient._delete_knowledge_base` (mindsdb_client.py lines
91-96): try the drop; on failure print an error message and return
normally — the exception never escapes. -/
def delete_knowledge_base (dropOk : Bool) : DeleteKBResult :=
  if dropOk then { raised := false, errorPrinted := false }
  else { raised := false, errorPrinted := true }

/-- Result of `delete_repository_action`: whether an exception escaped
the action, whether the DB record was removed, whether the final
"Successfully deleted repository ... and its knowledge base" message was
printed, whether a gateway error message was printed, and the store
afterwards. -/
structure DeleteActionResult where
  raised : Bool
  recordRemoved : Bool
  reportedSuccess : Bool
  gatewayErrorPrinted : Bool
  store : List Repository
deriving DecidableEq, Repr

/-- `delete_repository_action` (`src/docs_kb/commands/manage.py` lines
177-201), from the point where both confirmations have been given: drop
the knowledge base (best-effort, exception caught inside
`_delete_knowledge_base`), then delete the DB record and report success
or failure of that record deletion; an exception from either step would
propagate (`raised`), but `_delete_knowledge_base` never raises. -/
def delete_repository_action (repository : Repository) (dropOk : Bool)
    (store : List Repository) : DeleteActionResult :=
  let kbres := delete_knowledge_base dropOk
  if kbres.raised then
    { raised := true, recordRemoved := false, reportedSuccess := false
      gatewayErrorPrinted := kbres.errorPrinted, store := store }
  else
    let (success, store2) := delete_repository repository.name store
    { raised := false, recordRemoved := success
      reportedSuccess := success
      gatewayErrorPrinted := kbres.errorPrinted, store := store2 }

/-! ### The bucket membership conditions of `compare_files` -/

/-- The paths of a manifest, in order. -/
def pathsOf (l : List FileEntry) : List String := l.map (fun f => f.path)

/-- Condition under which the first loop of `compare_files` puts a
current file into `new`: its path is absent from the stored lookup. -/
def isNewCond (stored_lookup : List FileEntry) (cf : FileEntry) : Bool :=
  (lookupPath stored_lookup cf.path).isNone

/-- Condition for the `modified` bucket: the path is present in the
stored lookup with a different sha. -/
def isModifiedCond (stored_lookup : List FileEntry) (cf : FileEntry) : Bool :=
  match lookupPath stored_lookup cf.path with
  | none => false
  | some sf => decide (sf.sha ≠ cf.sha)

/-- Condition for the `unchanged` bucket: the path is present in the
stored lookup with the same sha. -/
def isUnchangedCond (stored_lookup : List FileEntry) (cf : FileEntry) : Bool :=
  match lookupPath stored_lookup cf.path with
  | none => false
  | some sf => decide (sf.sha = cf.sha)

/-- Condition for the `deleted` bucket: a stored file whose path is
absent from the current lookup. -/
def isDeletedCond (current_lookup : List FileEntry) (sf : FileEntry) : Bool :=
  (lookupPath current_lookup sf.path).isNone

theorem foldl_currentStep_new (sl : List FileEntry) (l : List FileEntry)
    (cs : ChangeSet) :
    (l.foldl (currentStep sl) cs).new = cs.new ++ l.filter (isNewCond sl) := by
  induction l generalizing cs with
  | nil => simp
  | cons f t ih =>
    rw [List.foldl_cons, ih, List.filter_cons]
    cases h : lookupPath sl f.path with
    | none => simp [currentStep, isNewCond, h]
    | some sf =>
      by_cases hsha : sf.sha = f.sha <;>
        simp [currentStep, isNewCond, h, hsha]

theorem foldl_currentStep_modified (sl : List FileEntry)
    (l : List FileEntry) (cs : ChangeSet) :
    (l.foldl (currentStep sl) cs).modified =
      cs.modified ++ l.filter (isModifiedCond sl) := by
  induction l generalizing cs with
  | nil => simp
  | cons f t ih =>
    rw [List.foldl_cons, ih, List.filter_cons]
    cases h : lookupPath sl f.path with
    | none => simp [currentStep, isModifiedCond, h]
    | some sf =>
      by_cases hsha : sf.sha = f.sha <;>
        simp [currentStep, isModifiedCond, h, hsha]

theorem foldl_currentStep_unchanged (sl : List FileEntry)
    (l : List FileEntry) (cs : ChangeSet) :
    (l.foldl (currentStep sl) cs).unchanged =
      cs.unchanged ++ l.filter (isUnchangedCond sl) := by
  induction l generalizing cs with
  | nil => simp
  | cons f t ih =>
    rw [List.foldl_cons, ih, List.filter_cons]
    cases h : lookupPath sl f.path with
    | none => simp [currentStep, isUnchangedCond, h]
    | some sf =>
      by_cases hsha : sf.sha = f.sha <;>
        simp [currentStep, isUnchangedCond, h, hsha]

theorem foldl_currentStep_deleted (sl : List FileEntry)
    (l : List FileEntry) (cs : ChangeSet) :
    (l.foldl (currentStep sl) cs).deleted = cs.deleted := by
  induction l generalizing cs with
  | nil => simp
  | cons f t ih =>
    rw [List.foldl_cons, ih]
    cases h : lookupPath sl f.path with
    | none => simp [currentStep, h]
    | some sf =>
      by_cases hsha : sf.sha = f.sha <;> simp [currentStep, h, hsha]

theorem foldl_deletedStep_deleted (cl : List FileEntry)
    (l : List FileEntry) (cs : ChangeSet) :
    (l.foldl (deletedStep cl) cs).deleted =
      cs.deleted ++ l.filter (isDeletedCond cl) := by
  induction l generalizing cs with
  | nil => simp
  | cons f t ih =>
    rw [List.foldl_cons, ih, List.filter_cons]
    cases h : lookupPath cl f.path with
    | none => simp [deletedStep, isDeletedCond, h]
    | some g => simp [deletedStep, isDeletedCond, h]

theorem foldl_deletedStep_preserves (cl : List FileEntry)
    (l : List FileEntry) (cs : ChangeSet) :
    (l.foldl (deletedStep cl) cs).new = cs.new ∧
    (l.foldl (deletedStep cl) cs).modified = cs.modified ∧
    (l.foldl (deletedStep cl) cs).unchanged = cs.unchanged := by
  induction l generalizing cs with
  | nil => simp
  | cons f t ih =>
    rw [List.foldl_cons]
    cases h : lookupPath cl f.path with
    | none => simpa [deletedStep, h] using ih _
    | some g => simpa [deletedStep, h] using ih _

/-- The `new` bucket of `compare_files` is the filter of the current
lookup by `isNewCond`. -/
theorem compare_files_new (s c : List FileEntry) :
    (compare_files s c).new =
      (buildLookup c).filter (isNewCond (buildLookup s)) := by
  simp [compare_files, (foldl_deletedStep_preserves _ _ _).1,
    foldl_currentStep_new]

/-- The `modified` bucket of `compare_files` is the filter of the
current lookup by `isModifiedCond`. -/
theorem compare_files_modified (s c : List FileEntry) :
    (compare_files s c).modified =
      (buildLookup c).filter (isModifiedCond (buildLookup s)) := by
  simp [compare_files, (foldl_deletedStep_preserves _ _ _).2.1,
    foldl_currentStep_modified]

/-- The `unchanged` bucket of `compare_files` is the filter of the
current lookup by `isUnchangedCond`. -/
theorem compare_files_unchanged (s c : List FileEntry) :
    (compare_files s c).unchanged =
      (buildLookup c).filter (isUnchangedCond (buildLookup s)) := by
  simp [compare_files, (foldl_deletedStep_preserves _ _ _).2.2,
    foldl_currentStep_unchanged]

/-- The `deleted` bucket of `compare_files` is the filter of the stored
lookup by `isDeletedCond`. -/
theorem compare_files_deleted (s c : List FileEntry) :
    (compare_files s c).deleted =
      (buildLookup s).filter (isDeletedCond (buildLookup c)) := by
  simp [compare_files, foldl_deletedStep_deleted, foldl_currentStep_deleted]

/-! ### Facts about the path-keyed lookup `buildLookup` -/

theorem pathsOf_insertEntry (acc : List FileEntry) (f : FileEntry) :
    pathsOf (insertEntry acc f) =
      if acc.any (fun g => g.path = f.path) then pathsOf acc
      else pathsOf acc ++ [f.path] := by
  unfold insertEntry
  split
  · simp only [pathsOf, List.map_map]
    apply List.map_congr_left
    intro a _
    by_cases h : a.path = f.path <;> simp [h]
  · simp [pathsOf]

theorem mem_pathsOf_insertEntry {p : String} (acc : List FileEntry)
    (f : FileEntry) :
    p ∈ pathsOf (insertEntry acc f) ↔ p ∈ pathsOf acc ∨ p = f.path := by
  by_cases h : acc.any (fun g => g.path = f.path)
  · rw [pathsOf_insertEntry, if_pos h]
    have hf : f.path ∈ pathsOf acc := by
      rcases List.any_eq_true.mp h with ⟨g, hg, hgp⟩
      simp only [decide_eq_true_eq] at hgp
      exact hgp ▸ List.mem_map.mpr ⟨g, hg, rfl⟩
    constructor
    · exact Or.inl
    · rintro (hp | rfl)
      · exact hp
      · exact hf
  · rw [pathsOf_insertEntry, if_neg h]
    simp

theorem nodup_pathsOf_foldl (xs : List FileEntry) :
    ∀ acc : List FileEntry, (pathsOf acc).Nodup →
      (pathsOf (xs.foldl insertEntry acc)).Nodup := by
  induction xs with
  | nil => intro acc h; simpa using h
  | cons f t ih =>
    intro acc h
    rw [List.foldl_cons]
    apply ih
    by_cases hany : acc.any (fun g => g.path = f.path)
    · rw [pathsOf_insertEntry, if_pos hany]; exact h
    · rw [pathsOf_insertEntry, if_neg hany]
      rw [List.nodup_append]
      refine ⟨h, List.nodup_singleton _, ?_⟩
      intro p hp hp'
      rw [List.mem_singleton] at hp'
      subst hp'
      rcases List.mem_map.mp hp with ⟨g, hg, hgp⟩
      exact hany (List.any_eq_true.mpr ⟨g, hg, by simp [hgp]⟩)

theorem nodup_pathsOf_buildLookup (xs : List FileEntry) :
    (pathsOf (buildLookup xs)).Nodup :=
  nodup_pathsOf_foldl xs [] (by simp [pathsOf])

theorem mem_pathsOf_foldl {p : String} (xs : List FileEntry) :
    ∀ acc : List FileEntry,
      (p ∈ pathsOf (xs.foldl insertEntry acc) ↔
        p ∈ pathsOf acc ∨ p ∈ pathsOf xs) := by
  induction xs with
  | nil => intro acc; simp [pathsOf]
  | cons f t ih =>
    intro acc
    rw [List.foldl_cons, ih]
    rw [mem_pathsOf_insertEntry]
    simp only [pathsOf, List.map_cons, List.mem_cons]
    tauto

theorem mem_pathsOf_buildLookup {p : String} (xs : List FileEntry) :
    p ∈ pathsOf (buildLookup xs) ↔ p ∈ pathsOf xs := by
  rw [buildLookup, mem_pathsOf_foldl]
  simp [pathsOf]

theorem foldl_insertEntry_of_nodup (xs : List FileEntry) :
    ∀ acc : List FileEntry, (pathsOf (acc ++ xs)).Nodup →
      xs.foldl insertEntry acc = acc ++ xs := by
  induction xs with
  | nil => intro acc _; simp
  | cons f t ih =>
    intro acc h
    have hsplit : (pathsOf acc ++ f.path :: pathsOf t).Nodup := by
      simpa [pathsOf] using h
    rw [List.nodup_append] at hsplit
    have hnotin : ¬ acc.any (fun g => g.path = f.path) = true := by
      intro hany
      rcases List.any_eq_true.mp hany with ⟨g, hg, hgp⟩
      simp only [decide_eq_true_eq] at hgp
      exact hsplit.2.2 (List.mem_map.mpr ⟨g, hg, rfl⟩)
        (hgp ▸ List.mem_cons_self _ _)
    have hins : insertEntry acc f = acc ++ [f] := by
      rw [insertEntry, if_neg hnotin]
    rw [List.foldl_cons, hins, ih (acc ++ [f])
      (by rw [List.append_assoc]; simpa using h)]
    simp

theorem buildLookup_eq_self {xs : List FileEntry}
    (h : (pathsOf xs).Nodup) : buildLookup xs = xs := by
  have := foldl_insertEntry_of_nodup xs [] (by simpa using h)
  simpa using this

theorem buildLookup_idem (xs : List FileEntry) :
    buildLookup (buildLookup xs) = buildLookup xs :=
  buildLookup_eq_self (nodup_pathsOf_buildLookup xs)

theorem lookupPath_eq_none {l : List FileEntry} {p : String} :
    lookupPath l p = none ↔ p ∉ pathsOf l := by
  simp only [lookupPath, List.find?_eq_none, pathsOf, List.mem_map,
    decide_eq_true_eq]
  constructor
  · rintro h ⟨f, hf, rfl⟩
    exact h f hf rfl
  · intro h f hf hfp
    exact h ⟨f, hf, hfp⟩

theorem lookupPath_eq_some {l : List FileEntry} {p : String}
    {f : FileEntry} (h : lookupPath l p = some f) : f ∈ l ∧ f.path = p :=
  ⟨List.mem_of_find?_eq_some h, by simpa using List.find?_some h⟩

theorem lookupPath_self_of_nodup {l : List FileEntry}
    (h : (pathsOf l).Nodup) {f : FileEntry} (hf : f ∈ l) :
    lookupPath l f.path = some f := by
  induction l with
  | nil => cases hf
  | cons g t ih =>
    have hcons : g.path ∉ pathsOf t ∧ (pathsOf t).Nodup := by
      simpa [pathsOf, List.nodup_cons] using h
    rcases List.mem_cons.mp hf with rfl | hft
    · exact List.find?_cons_of_pos _ (by simp)
    · by_cases hgp : g.path = f.path
      · exact absurd (hgp ▸ List.mem_map.mpr ⟨f, hft, rfl⟩) hcons.1
      · rw [lookupPath, List.find?_cons_of_neg _ (by simp [hgp])]
        exact ih hcons.2 hft

theorem path_inj {l : List FileEntry} (h : (pathsOf l).Nodup)
    {f g : FileEntry} (hf : f ∈ l) (hg : g ∈ l) (hp : f.path = g.path) :
    f = g :=
  List.inj_on_of_nodup_map (by simpa [pathsOf] using h) hf hg hp

/-! ### The partition property of `compare_files` -/

/-- All paths across the four buckets of a change set, in bucket order. -/
def allPaths (cs : ChangeSet) : List String :=
  pathsOf cs.new ++ pathsOf cs.modified ++ pathsOf cs.deleted
    ++ pathsOf cs.unchanged

theorem count_nodup_paths {l : List String} (h : l.Nodup) (p : String) :
    l.count p = if p ∈ l then 1 else 0 := by
  split
  · exact List.count_eq_one_of_mem h ‹_›
  · exact List.count_eq_zero.mpr ‹_›

theorem nodup_pathsOf_filter {l : List FileEntry}
    (h : (pathsOf l).Nodup) (cond : FileEntry → Bool) :
    (pathsOf (l.filter cond)).Nodup := by
  have sub : (pathsOf (l.filter cond)).Sublist (pathsOf l) :=
    List.Sublist.map _ (List.filter_sublist l)
  exact List.Nodup.sublist sub h

theorem mem_pathsOf_filter {l : List FileEntry} {cond : FileEntry → Bool}
    {p : String} :
    p ∈ pathsOf (l.filter cond) ↔
      ∃ f, f ∈ l ∧ f.path = p ∧ cond f = true := by
  simp only [pathsOf, List.mem_map, List.mem_filter]
  constructor
  · rintro ⟨f, ⟨hf, hc⟩, rfl⟩
    exact ⟨f, hf, rfl, hc⟩
  · rintro ⟨f, hf, rfl, hc⟩
    exact ⟨f, ⟨hf, hc⟩, rfl⟩

theorem not_mem_pathsOf_filter {l : List FileEntry}
    {cond : FileEntry → Bool} {p : String} (h : p ∉ pathsOf l) :
    p ∉ pathsOf (l.filter cond) := by
  intro hm
  obtain ⟨f, hf, rfl, _⟩ := mem_pathsOf_filter.mp hm
  exact h (List.mem_map.mpr ⟨f, hf, rfl⟩)

theorem mem_pathsOf_filter_iff_cond {l : List FileEntry}
    (h : (pathsOf l).Nodup) {f : FileEntry} (hf : f ∈ l)
    (cond : FileEntry → Bool) :
    f.path ∈ pathsOf (l.filter cond) ↔ cond f = true := by
  rw [mem_pathsOf_filter]
  constructor
  · rintro ⟨g, hg, hgp, hgc⟩
    exact path_inj h hg hf hgp ▸ hgc
  · intro hcf
    exact ⟨f, hf, rfl, hcf⟩

/-- Core partition fact: for arbitrary inputs (duplicates permitted, the
path-keyed lookups deduplicate them), every path of the union of stored
and current manifests occurs exactly once across the four buckets of
`compare_files`, and paths outside the union occur in no bucket. -/
theorem count_allPaths_compare (s c : List FileEntry) (p : String) :
    (allPaths (compare_files s c)).count p =
      if p ∈ pathsOf s ∨ p ∈ pathsOf c then 1 else 0 := by
  have hns := nodup_pathsOf_buildLookup s
  have hnc := nodup_pathsOf_buildLookup c
  rw [allPaths, compare_files_new, compare_files_modified,
    compare_files_deleted, compare_files_unchanged]
  simp only [List.count_append]
  rw [count_nodup_paths (nodup_pathsOf_filter hnc _) p,
    count_nodup_paths (nodup_pathsOf_filter hnc _) p,
    count_nodup_paths (nodup_pathsOf_filter hns _) p,
    count_nodup_paths (nodup_pathsOf_filter hnc _) p]
  by_cases hc : p ∈ pathsOf c
  · have hc' : p ∈ pathsOf (buildLookup c) :=
      (mem_pathsOf_buildLookup c).mpr hc
    obtain ⟨fc, hfc, hfcp⟩ := List.mem_map.mp hc'
    subst hfcp
    have hdel : fc.path ∉
        pathsOf ((buildLookup s).filter (isDeletedCond (buildLookup c))) := by
      intro hmem
      obtain ⟨g, _, hgp, hgc⟩ := mem_pathsOf_filter.mp hmem
      rw [isDeletedCond, Option.isNone_iff_eq_none, lookupPath_eq_none]
        at hgc
      exact hgc (hgp ▸ hc')
    simp only [mem_pathsOf_filter_iff_cond hnc hfc (isNewCond _),
      mem_pathsOf_filter_iff_cond hnc hfc (isModifiedCond _),
      mem_pathsOf_filter_iff_cond hnc hfc (isUnchangedCond _),
      if_neg hdel]
    rcases hlook : lookupPath (buildLookup s) fc.path with _ | sf
    · simp [isNewCond, isModifiedCond, isUnchangedCond, hlook, hc]
    · by_cases hsha : sf.sha = fc.sha
      · simp [isNewCond, isModifiedCond, isUnchangedCond, hlook, hsha, hc]
      · simp [isNewCond, isModifiedCond, isUnchangedCond, hlook, hsha, hc]
  · have hc'' : p ∉ pathsOf (buildLookup c) := fun hmem =>
      hc ((mem_pathsOf_buildLookup c).mp hmem)
    rw [if_neg (not_mem_pathsOf_filter hc''),
      if_neg (not_mem_pathsOf_filter hc''),
      if_neg (not_mem_pathsOf_filter hc'')]
    by_cases hs : p ∈ pathsOf s
    · have hs' : p ∈ pathsOf (buildLookup s) :=
        (mem_pathsOf_buildLookup s).mpr hs
      obtain ⟨fs, hfs, hfsp⟩ := List.mem_map.mp hs'
      subst hfsp
      have hdc : isDeletedCond (buildLookup c) fs = true := by
        rw [isDeletedCond, Option.isNone_iff_eq_none, lookupPath_eq_none]
        exact hc''
      rw [if_pos ((mem_pathsOf_filter_iff_cond hns hfs
        (isDeletedCond _)).mpr hdc)]
      simp [hs]
    · have hs'' : p ∉ pathsOf (buildLookup s) := fun hmem =>
        hs ((mem_pathsOf_buildLookup s).mp hmem)
      rw [if_neg (not_mem_pathsOf_filter hs'')]
      simp [hs, hc]

/-! ### The lookup maps each path to its last occurrence -/

theorem find_map_replace_eq (acc : List FileEntry) (f : FileEntry)
    (hany : acc.any (fun g => g.path = f.path) = true) :
    lookupPath (acc.map (fun g => if g.path = f.path then f else g))
      f.path = some f := by
  induction acc with
  | nil => simp at hany
  | cons a t ih =>
    by_cases ha : a.path = f.path
    · simp only [List.map_cons, if_pos ha]
      exact List.find?_cons_of_pos _ (by simp)
    · simp only [List.map_cons, if_neg ha]
      rw [lookupPath, List.find?_cons_of_neg _ (by simp [ha])]
      exact ih (by simpa [List.any_cons, ha] using hany)

theorem find_map_replace_ne (acc : List FileEntry) (f : FileEntry)
    (p : String) (hp : p ≠ f.path) :
    lookupPath (acc.map (fun g => if g.path = f.path then f else g)) p =
      lookupPath acc p := by
  induction acc with
  | nil => rfl
  | cons a t ih =>
    by_cases ha : a.path = f.path
    · simp only [List.map_cons, if_pos ha]
      rw [lookupPath, List.find?_cons_of_neg _
          (by simp; exact fun hfp => hp hfp.symm),
        lookupPath, List.find?_cons_of_neg _
          (by simp [ha]; exact fun hfp => hp hfp.symm)]
      exact ih
    · simp only [List.map_cons, if_neg ha]
      by_cases hap : a.path = p
      · rw [lookupPath, List.find?_cons_of_pos _ (by simp [hap]),
          lookupPath, List.find?_cons_of_pos _ (by simp [hap])]
      · rw [lookupPath, List.find?_cons_of_neg _ (by simp [hap]),
          lookupPath, List.find?_cons_of_neg _ (by simp [hap])]
        exact ih

theorem lookupPath_insertEntry (acc : List FileEntry) (f : FileEntry)
    (p : String) :
    lookupPath (insertEntry acc f) p =
      if p = f.path then some f else lookupPath acc p := by
  unfold insertEntry
  by_cases hany : acc.any (fun g => g.path = f.path) = true
  · rw [if_pos hany]
    by_cases hp : p = f.path
    · rw [if_pos hp, hp]
      exact find_map_replace_eq acc f hany
    · rw [if_neg hp]
      exact find_map_replace_ne acc f p hp
  · rw [if_neg hany]
    have hnone : ∀ x ∈ acc, ¬ x.path = f.path :=
      fun x hx hxf => hany (List.any_eq_true.mpr ⟨x, hx, by simp [hxf]⟩)
    by_cases hp : p = f.path
    · subst hp
      rw [if_pos rfl, lookupPath, List.find?_append]
      have h1 : acc.find? (fun g => decide (g.path = f.path)) = none :=
        List.find?_eq_none.mpr (by simpa using hnone)
      rw [h1, Option.none_or, List.find?_cons_of_pos _ (by simp)]
    · rw [if_neg hp, lookupPath, List.find?_append]
      have h2 : List.find? (fun g => decide (g.path = p)) [f] = none := by
        rw [List.find?_eq_none]
        intro x hx
        rw [List.mem_singleton] at hx
        subst hx
        simp
        exact fun hfp => hp hfp.symm
      rw [h2, Option.or_none]
      rfl

/-- The path-keyed lookup maps each path to the *last* entry of the input
with that path: later entries overwrite earlier ones. -/
theorem lookupPath_buildLookup_last (xs : List FileEntry) (p : String) :
    lookupPath (buildLookup xs) p =
      xs.reverse.find? (fun f => f.path = p) := by
  induction xs using List.reverseRecOn with
  | nil => simp [buildLookup, lookupPath]
  | append_singleton xs f ih =>
    rw [buildLookup] at ih ⊢
    rw [List.foldl_append, List.foldl_cons, List.foldl_nil,
      lookupPath_insertEntry, List.reverse_append]
    simp only [List.reverse_cons, List.reverse_nil, List.nil_append,
      List.singleton_append]
    by_cases hp : p = f.path
    · rw [if_pos hp, List.find?_cons_of_pos _ (by simp [hp])]
    · rw [if_neg hp, List.find?_cons_of_neg _
        (by simpa using fun hfp => hp hfp.symm)]
      exact ih

/-! ### Ordering of gateway operations in an apply run -/

theorem isDelete_not_isInsert {op : GatewayOp}
    (h : op.isDelete = true) : op.isInsert = false := by
  cases op
  · rfl
  · simp [GatewayOp.isDelete] at h

theorem isInsert_not_isDelete {op : GatewayOp}
    (h : op.isInsert = true) : op.isDelete = false := by
  cases op
  · simp [GatewayOp.isInsert] at h
  · rfl

theorem mem_right_of_get {α : Type} {l₁ l₂ : List α} {k : Nat}
    (hk : k < (l₁ ++ l₂).length) (hge : l₁.length ≤ k) :
    (l₁ ++ l₂).get ⟨k, hk⟩ ∈ l₂ := by
  rw [List.get_eq_getElem, List.getElem_append_right hge]
  exact List.getElem_mem _

theorem mem_left_of_get {α : Type} {l₁ l₂ : List α} {k : Nat}
    (hk : k < (l₁ ++ l₂).length) (hlt : k < l₁.length) :
    (l₁ ++ l₂).get ⟨k, hk⟩ ∈ l₁ := by
  rw [List.get_eq_getElem, List.getElem_append_left hlt]
  exact List.getElem_mem _

theorem delete_before_insert_in_append {ds ins : List GatewayOp}
    (hds : ∀ op ∈ ds, op.isDelete = true)
    (hins : ∀ op ∈ ins, op.isInsert = true)
    (i j : Nat) (hi : i < (ds ++ ins).length)
    (hj : j < (ds ++ ins).length)
    (hdel : ((ds ++ ins).get ⟨i, hi⟩).isDelete = true)
    (hinsj : ((ds ++ ins).get ⟨j, hj⟩).isInsert = true) :
    i < j := by
  have hi' : i < ds.length := by
    by_contra hge
    push_neg at hge
    have h2 := isInsert_not_isDelete (hins _ (mem_right_of_get hi hge))
    rw [h2] at hdel
    exact absurd hdel (by simp)
  have hj' : ds.length ≤ j := by
    by_contra hlt
    push_neg at hlt
    have h2 := isDelete_not_isInsert (hds _ (mem_left_of_get hj hlt))
    rw [h2] at hinsj
    exact absurd hinsj (by simp)
  omega

theorem process_changes_ops_split (repository : Repository)
    (fetch : String → Option LoadedFile) (rediscovered : List FileEntry)
    (now : Nat) (changes : ChangeSet) :
    ∃ ds ins : List GatewayOp,
      (process_changes repository fetch rediscovered now changes).ops
        = ds ++ ins ∧
      (∀ op ∈ ds, op.isDelete = true) ∧
      (∀ op ∈ ins, op.isInsert = true) := by
  refine ⟨_, _, rfl, ?_, ?_⟩
  · intro op hop
    split at hop
    · cases hop
    · rw [delete_files_from_knowledge_base] at hop
      split at hop
      · cases hop
      · obtain ⟨p, _, rfl⟩ := List.mem_map.mp hop
        rfl
  · intro op hop
    split at hop
    · cases hop
    · rw [List.mem_singleton] at hop
      subst hop
      rfl

/-! ### The claims -/

/-- C1: for every stored and current manifest with pairwise-distinct
paths, `compare_files` places every path of the union of the two
manifests into exactly one of the four buckets — a path occurs exactly
once across `new ++ modified ++ deleted ++ unchanged` iff it is in the
union, so no path is omitted and none appears in two buckets. -/
theorem C1_compare_files_partition (stored current : List FileEntry)
    (hs : (pathsOf stored).Nodup) (hc : (pathsOf current).Nodup)
    (p : String) :
    (p ∈ pathsOf stored ∨ p ∈ pathsOf current) ↔
      (allPaths (compare_files stored current)).count p = 1 := by
  rw [count_allPaths_compare]
  by_cases h : p ∈ pathsOf stored ∨ p ∈ pathsOf current <;> simp [h]

/-- Witness for C1 at a concrete pair of manifests and the path
`"b.md"` of their union. -/
theorem C1_compare_files_partition_witness :
    (pathsOf [⟨"a.md", "a.md", 1, "s1"⟩, ⟨"b.md", "b.md", 2, "s2"⟩]).Nodup ∧
    (pathsOf [⟨"a.md", "a.md", 1, "s1"⟩, ⟨"c.md", "c.md", 3, "s3"⟩]).Nodup ∧
    (allPaths (compare_files
        [⟨"a.md", "a.md", 1, "s1"⟩, ⟨"b.md", "b.md", 2, "s2"⟩]
        [⟨"a.md", "a.md", 1, "s1"⟩, ⟨"c.md", "c.md", 3, "s3"⟩])).count
      "b.md" = 1 :=
  ⟨by decide, by decide,
    (C1_compare_files_partition
        [⟨"a.md", "a.md", 1, "s1"⟩, ⟨"b.md", "b.md", 2, "s2"⟩]
        [⟨"a.md", "a.md", 1, "s1"⟩, ⟨"c.md", "c.md", 3, "s3"⟩]
        (by decide) (by decide) "b.md").mp (by decide)⟩

/-- C2: if a path occurs in both manifests (each with pairwise-distinct
paths) with different sha values, `compare_files` classifies it as
`modified`, and it appears in neither `new` nor `deleted`. -/
theorem C2_sha_change_is_modified (stored current : List FileEntry)
    (fs fc : FileEntry)
    (hs : (pathsOf stored).Nodup) (hc : (pathsOf current).Nodup)
    (hfs : fs ∈ stored) (hfc : fc ∈ current)
    (hpath : fs.path = fc.path) (hsha : fs.sha ≠ fc.sha) :
    fc.path ∈ pathsOf (compare_files stored current).modified ∧
    fc.path ∉ pathsOf (compare_files stored current).new ∧
    fc.path ∉ pathsOf (compare_files stored current).deleted := by
  rw [compare_files_modified, compare_files_new, compare_files_deleted,
    buildLookup_eq_self hs, buildLookup_eq_self hc]
  have hlook : lookupPath stored fc.path = some fs := by
    rw [← hpath]
    exact lookupPath_self_of_nodup hs hfs
  refine ⟨?_, ?_, ?_⟩
  · exact (mem_pathsOf_filter_iff_cond hc hfc _).mpr
      (by simp [isModifiedCond, hlook, hsha])
  · rw [mem_pathsOf_filter_iff_cond hc hfc]
    simp [isNewCond, hlook]
  · intro hmem
    obtain ⟨g, _, hgp, hgc⟩ := mem_pathsOf_filter.mp hmem
    rw [isDeletedCond, Option.isNone_iff_eq_none, lookupPath_eq_none]
      at hgc
    exact hgc (hgp ▸ List.mem_map.mpr ⟨fc, hfc, rfl⟩)

/-- Witness for C2: the same path with sha `"2"` stored and `"9"`
current lands in `modified` only. -/
theorem C2_sha_change_is_modified_witness :
    ("2" : String) ≠ "9" ∧
    "b.md" ∈ pathsOf (compare_files [⟨"b.md", "b.md", 2, "2"⟩]
      [⟨"b.md", "b.md", 2, "9"⟩]).modified ∧
    "b.md" ∉ pathsOf (compare_files [⟨"b.md", "b.md", 2, "2"⟩]
      [⟨"b.md", "b.md", 2, "9"⟩]).new ∧
    "b.md" ∉ pathsOf (compare_files [⟨"b.md", "b.md", 2, "2"⟩]
      [⟨"b.md", "b.md", 2, "9"⟩]).deleted :=
  ⟨by decide,
    C2_sha_change_is_modified [⟨"b.md", "b.md", 2, "2"⟩]
      [⟨"b.md", "b.md", 2, "9"⟩] ⟨"b.md", "b.md", 2, "2"⟩
      ⟨"b.md", "b.md", 2, "9"⟩ (by decide) (by decide) (by decide)
      (by decide) rfl (by decide)⟩

/-- C3: diffing a manifest with pairwise-distinct paths against itself
yields empty `new`, `modified` and `deleted` buckets and `unchanged`
equal to the manifest. -/
theorem C3_compare_files_self (M : List FileEntry)
    (h : (pathsOf M).Nodup) :
    compare_files M M =
      { new := [], modified := [], deleted := [], unchanged := M } := by
  have hb := buildLookup_eq_self h
  have hnew : (compare_files M M).new = [] := by
    rw [compare_files_new, hb, List.filter_eq_nil_iff]
    intro f hf
    simp [isNewCond, lookupPath_self_of_nodup h hf]
  have hmod : (compare_files M M).modified = [] := by
    rw [compare_files_modified, hb, List.filter_eq_nil_iff]
    intro f hf
    simp [isModifiedCond, lookupPath_self_of_nodup h hf]
  have hdel : (compare_files M M).deleted = [] := by
    rw [compare_files_deleted, hb, List.filter_eq_nil_iff]
    intro f hf
    simp [isDeletedCond, lookupPath_self_of_nodup h hf]
  have hunch : (compare_files M M).unchanged = M := by
    rw [compare_files_unchanged, hb, List.filter_eq_self]
    intro f hf
    simp [isUnchangedCond, lookupPath_self_of_nodup h hf]
  have heta : compare_files M M =
      { new := (compare_files M M).new
        modified := (compare_files M M).modified
        deleted := (compare_files M M).deleted
        unchanged := (compare_files M M).unchanged } := rfl
  rw [heta, hnew, hmod, hdel, hunch]

/-- Witness for C3 at a concrete two-file manifest. -/
theorem C3_compare_files_self_witness :
    (pathsOf [⟨"a.md", "a.md", 1, "s1"⟩, ⟨"b.md", "b.md", 2, "s2"⟩]).Nodup ∧
    compare_files [⟨"a.md", "a.md", 1, "s1"⟩, ⟨"b.md", "b.md", 2, "s2"⟩]
        [⟨"a.md", "a.md", 1, "s1"⟩, ⟨"b.md", "b.md", 2, "s2"⟩] =
      { new := [], modified := [], deleted := [],
        unchanged := [⟨"a.md", "a.md", 1, "s1"⟩, ⟨"b.md", "b.md", 2, "s2"⟩] } :=
  ⟨by decide, C3_compare_files_self
    [⟨"a.md", "a.md", 1, "s1"⟩, ⟨"b.md", "b.md", 2, "s2"⟩] (by decide)⟩

/-- C4: the derived knowledge-base name is `"kb_" ++ name` with every
`/` and `-` replaced by `_`, followed by `"_" ++ branch`; in particular
for `octo/Repo-X` on `main` it is exactly `kb_octo_Repo_X_main`. -/
theorem C4_kb_name_rule (repo_name branch : String) :
    get_kb_name repo_name branch =
      "kb_" ++ strReplace (strReplace repo_name '/' '_') '-' '_'
        ++ "_" ++ branch ∧
    get_kb_name "octo/Repo-X" "main" = "kb_octo_Repo_X_main" :=
  ⟨rfl, by decide⟩

/-- C5: when the change set of stored vs current has empty `new`,
`modified` and `deleted` buckets, `sync_repository` reports "already up
to date", issues zero gateway calls, and returns the stored record
unchanged (same `files`, same `last_ingested`). -/
theorem C5_noop_fast_path (repository : Repository)
    (current_files : List FileEntry) (fetch : String → Option LoadedFile)
    (rediscovered : List FileEntry) (now : Nat)
    (hnew : (compare_files repository.files current_files).new = [])
    (hmod : (compare_files repository.files current_files).modified = [])
    (hdel : (compare_files repository.files current_files).deleted = []) :
    sync_repository repository current_files fetch rediscovered now =
      { upToDate := true, ops := [], repo := repository } := by
  simp [sync_repository, has_changes, hnew, hmod, hdel]

/-- Witness for C5: syncing a repository against an identical remote
manifest is a no-op. -/
theorem C5_noop_fast_path_witness :
    (compare_files [⟨"a.md", "a.md", 1, "s"⟩]
      [⟨"a.md", "a.md", 1, "s"⟩]).new = [] ∧
    (compare_files [⟨"a.md", "a.md", 1, "s"⟩]
      [⟨"a.md", "a.md", 1, "s"⟩]).modified = [] ∧
    (compare_files [⟨"a.md", "a.md", 1, "s"⟩]
      [⟨"a.md", "a.md", 1, "s"⟩]).deleted = [] ∧
    sync_repository ⟨1, "o/r", "main", "kb", 0, some 3,
        [⟨"a.md", "a.md", 1, "s"⟩]⟩ [⟨"a.md", "a.md", 1, "s"⟩]
        (fun _ => none) [] 9 =
      { upToDate := true, ops := [],
        repo := ⟨1, "o/r", "main", "kb", 0, some 3,
          [⟨"a.md", "a.md", 1, "s"⟩]⟩ } :=
  ⟨by decide, by decide, by decide,
    C5_noop_fast_path ⟨1, "o/r", "main", "kb", 0, some 3,
        [⟨"a.md", "a.md", 1, "s"⟩]⟩ [⟨"a.md", "a.md", 1, "s"⟩]
      (fun _ => none) [] 9 (by decide) (by decide) (by decide)⟩

/-- C6: in the sequence of gateway calls issued by one `process_changes`
run, every delete comes strictly before every insert — no insert ever
precedes a delete. -/
theorem C6_deletes_before_inserts (repository : Repository)
    (fetch : String → Option LoadedFile) (rediscovered : List FileEntry)
    (now : Nat) (changes : ChangeSet) (i j : Nat)
    (hi : i <
      (process_changes repository fetch rediscovered now changes).ops.length)
    (hj : j <
      (process_changes repository fetch rediscovered now changes).ops.length)
    (hdel : ((process_changes repository fetch rediscovered now
      changes).ops.get ⟨i, hi⟩).isDelete = true)
    (hins : ((process_changes repository fetch rediscovered now
      changes).ops.get ⟨j, hj⟩).isInsert = true) :
    i < j := by
  obtain ⟨ds, ins, heq, hds, hins'⟩ :=
    process_changes_ops_split repository fetch rediscovered now changes
  revert hi hj hdel hins
  rw [heq]
  intro hi hj hdel hins
  exact delete_before_insert_in_append hds hins' i j hi hj hdel hins

/-- Witness for C6: one modified and one new file produce a delete at
index 0 and an insert at index 1. -/
theorem C6_deletes_before_inserts_witness :
    ((process_changes ⟨1, "o/r", "main", "kb", 0, none, []⟩
        (fun p => some ⟨p, p, 1, "sha", "c"⟩) [] 5
        ⟨[⟨"n.md", "n.md", 1, "s1"⟩], [⟨"m.md", "m.md", 1, "s2"⟩], [],
          []⟩).ops.get ⟨0, by decide⟩).isDelete = true ∧
    ((process_changes ⟨1, "o/r", "main", "kb", 0, none, []⟩
        (fun p => some ⟨p, p, 1, "sha", "c"⟩) [] 5
        ⟨[⟨"n.md", "n.md", 1, "s1"⟩], [⟨"m.md", "m.md", 1, "s2"⟩], [],
          []⟩).ops.get ⟨1, by decide⟩).isInsert = true ∧
    (0 : Nat) < 1 :=
  ⟨by decide, by decide,
    C6_deletes_before_inserts ⟨1, "o/r", "main", "kb", 0, none, []⟩
      (fun p => some ⟨p, p, 1, "sha", "c"⟩) [] 5
      ⟨[⟨"n.md", "n.md", 1, "s1"⟩], [⟨"m.md", "m.md", 1, "s2"⟩], [], []⟩
      0 1 (by decide) (by decide) (by decide) (by decide)⟩

/-- C7: concrete run showing the code's behavior at the failing input.
The only file `a.md` is new and fails to fetch: it is excluded from the
gateway insert (the batch is empty), yet `update_repository_files`
stores the full freshly discovered listing, so the recorded manifest
still contains `a.md` and `last_ingested` is bumped — the manifest does
not reflect only the actually applied state. -/
theorem C7_fetch_failure_still_recorded :
    (sync_repository ⟨1, "octo/repo", "main", "kb_octo_repo_main", 0,
        none, []⟩ [⟨"a.md", "a.md", 3, "sha1"⟩] (fun _ => none)
        [⟨"a.md", "a.md", 3, "sha1"⟩] 9).ops =
      [GatewayOp.insertOp []] ∧
    (sync_repository ⟨1, "octo/repo", "main", "kb_octo_repo_main", 0,
        none, []⟩ [⟨"a.md", "a.md", 3, "sha1"⟩] (fun _ => none)
        [⟨"a.md", "a.md", 3, "sha1"⟩] 9).repo.files =
      [⟨"a.md", "a.md", 3, "sha1"⟩] ∧
    (sync_repository ⟨1, "octo/repo", "main", "kb_octo_repo_main", 0,
        none, []⟩ [⟨"a.md", "a.md", 3, "sha1"⟩] (fun _ => none)
        [⟨"a.md", "a.md", 3, "sha1"⟩] 9).repo.last_ingested = some 9 := by
  exact ⟨by decide, by decide, by decide⟩

/-- C8 counterexample: with the gateway drop failing, the record is
removed but no exception escapes `delete_repository_action` and the
final report is still "success" — the failure is not surfaced to the
caller, refuting the claim at this input. -/
theorem C8_counterexample_swallowed :
    (delete_repository_action ⟨1, "o/r", "main", "kb", 0, none, []⟩ false
        [⟨1, "o/r", "main", "kb", 0, none, []⟩]).recordRemoved = true ∧
    ¬ ((delete_repository_action ⟨1, "o/r", "main", "kb", 0, none, []⟩
          false [⟨1, "o/r", "main", "kb", 0, none, []⟩]).raised = true ∨
       (delete_repository_action ⟨1, "o/r", "main", "kb", 0, none, []⟩
          false [⟨1, "o/r", "main", "kb", 0, none,
            []⟩]).reportedSuccess = false) := by
  exact ⟨by decide, by decide⟩

/-- C8 amended: when the gateway drop fails during
`delete_repository_action`, the Manifest Store record is still removed
and an error message for the gateway failure is printed, but the
exception is swallowed inside `_delete_knowledge_base`: nothing
propagates to the caller and the action still reports overall success. -/
theorem C8_amended_best_effort_delete (repository : Repository)
    (store : List Repository)
    (hfound : (store.find?
      (fun r => r.name = repository.name)).isSome = true) :
    (delete_repository_action repository false store).recordRemoved
        = true ∧
    (delete_repository_action repository false store).gatewayErrorPrinted
        = true ∧
    (delete_repository_action repository false store).raised = false ∧
    (delete_repository_action repository false store).reportedSuccess
        = true := by
  rcases hfind : store.find? (fun r => r.name = repository.name)
    with _ | r0
  · rw [hfind] at hfound
    simp at hfound
  · simp [delete_repository_action, delete_knowledge_base,
      delete_repository, hfind]

/-- Witness for the amended C8 at a one-record store. -/
theorem C8_amended_best_effort_delete_witness :
    (([⟨1, "o/r", "main", "kb", 0, none, []⟩] :
        List Repository).find? (fun r => r.name =
          (⟨1, "o/r", "main", "kb", 0, none, []⟩ :
            Repository).name)).isSome = true ∧
    ((delete_repository_action ⟨1, "o/r", "main", "kb", 0, none, []⟩
        false [⟨1, "o/r", "main", "kb", 0, none,
          []⟩]).recordRemoved = true ∧
     (delete_repository_action ⟨1, "o/r", "main", "kb", 0, none, []⟩
        false [⟨1, "o/r", "main", "kb", 0, none,
          []⟩]).gatewayErrorPrinted = true ∧
     (delete_repository_action ⟨1, "o/r", "main", "kb", 0, none, []⟩
        false [⟨1, "o/r", "main", "kb", 0, none, []⟩]).raised = false ∧
     (delete_repository_action ⟨1, "o/r", "main", "kb", 0, none, []⟩
        false [⟨1, "o/r", "main", "kb", 0, none,
          []⟩]).reportedSuccess = true) :=
  ⟨by decide, C8_amended_best_effort_delete
    ⟨1, "o/r", "main", "kb", 0, none, []⟩
    [⟨1, "o/r", "main", "kb", 0, none, []⟩] (by decide)⟩

/-- C9: a first ingestion that fails before the knowledge-base insert
succeeds (knowledge-base creation or the insert itself raising) leaves
the Manifest Store untouched: no record for that repository name
exists afterwards. -/
theorem C9_no_record_before_first_insert (repo_name branch : String)
    (files : List FileEntry) (kbOk insertOk addOk : Bool)
    (nextId now : Nat) (store : List Repository)
    (hnone : ∀ r ∈ store, r.name ≠ repo_name)
    (hfail : kbOk = false ∨ insertOk = false) :
    (ingest repo_name branch files kbOk insertOk addOk nextId now
        store).ok = false ∧
    (ingest repo_name branch files kbOk insertOk addOk nextId now
        store).store = store ∧
    ∀ r ∈ (ingest repo_name branch files kbOk insertOk addOk nextId now
        store).store, r.name ≠ repo_name := by
  rcases hfail with rfl | rfl
  · exact ⟨by simp [ingest], by simp [ingest],
      by simpa [ingest] using hnone⟩
  · cases kbOk
    · exact ⟨by simp [ingest], by simp [ingest],
        by simpa [ingest] using hnone⟩
    · exact ⟨by simp [ingest], by simp [ingest],
        by simpa [ingest] using hnone⟩

/-- Witness for C9: a failing insert on an empty store leaves no
record. -/
theorem C9_no_record_before_first_insert_witness :
    (∀ r ∈ ([] : List Repository), r.name ≠ "o/r") ∧
    ((true : Bool) = false ∨ (false : Bool) = false) ∧
    ((ingest "o/r" "main" [] true false true 1 0 []).ok = false ∧
     (ingest "o/r" "main" [] true false true 1 0 []).store = [] ∧
     ∀ r ∈ (ingest "o/r" "main" [] true false true 1 0 []).store,
       r.name ≠ "o/r") :=
  ⟨by decide, Or.inr rfl,
    C9_no_record_before_first_insert "o/r" "main" [] true false true 1 0
      [] (by decide) (Or.inr rfl)⟩

/-- C10: the path-keyed lookups of `compare_files` map every duplicated
path to its last occurrence in the input (later entries overwrite
earlier ones), the classification depends only on those deduplicated
lookups, and every path appears at most once across the four output
buckets even when duplicated in the input. -/
theorem C10_duplicates_last_occurrence
    (stored current : List FileEntry) (p : String) :
    lookupPath (buildLookup stored) p =
      stored.reverse.find? (fun f => f.path = p) ∧
    lookupPath (buildLookup current) p =
      current.reverse.find? (fun f => f.path = p) ∧
    compare_files stored current =
      compare_files (buildLookup stored) (buildLookup current) ∧
    (allPaths (compare_files stored current)).count p ≤ 1 := by
  refine ⟨lookupPath_buildLookup_last _ _,
    lookupPath_buildLookup_last _ _, ?_, ?_⟩
  · simp [compare_files, buildLookup_idem]
  · rw [count_allPaths_compare]
    split <;> omega

end DocsKb
